import Mathlib

/-!
Verification development for the Honua.Server repository.

The repository ships two C# refactor scripts (`fix_fields.py`,
`fix_this_references.py`) and a black-box HTTP test corpus for an
OGC API - Processes job engine whose implementation is not part of the
repository.  The scripts are embedded directly from their source; the job
engine (orchestrator, dispatcher, worker pool, cancellation controller,
results store, garbage collector) is modelled from the specification.

Text is modelled as `List Char`; file paths, process identifiers and opaque
payloads are modelled as `Nat` keys.
-/

/-- Python's `\w` word-character class restricted to ASCII: letters, digits
and underscore. -/
def isWordChar (c : Char) : Bool := c.isAlphanum || c == '_'

namespace FixFields

/-- One parsed CS0103 build error, as produced by `get_build_errors` in
`fix_fields.py`: the regex captures the file path (modelled as an opaque
`Nat` key), the 1-based line and column, and the offending identifier. -/
structure BuildError where
  file : Nat
  line : Nat
  col : Nat
  field : List Char
deriving DecidableEq, Repr

/-- Descending comparison on the `line` key, mirroring
`sorted(errors_in_file, key=lambda e: e['line'], reverse=True)`. -/
def errLineGe (a b : BuildError) : Prop := b.line ≤ a.line

instance : DecidableRel errLineGe :=
  fun a b => inferInstanceAs (Decidable (b.line ≤ a.line))

/-- Stable descending sort by line number used by `fix_file`. -/
def sortErrorsDesc (errors : List BuildError) : List BuildError :=
  List.insertionSort errLineGe errors

/-- Maximal runs of word characters in a line, as `(start, stop)` index
pairs: exactly the matches of `re.finditer(r'\b\w+\b', line)`. -/
def wordRunsAux : List Char → Nat → Option Nat → List (Nat × Nat)
  | [], _, none => []
  | [], i, some s => [(s, i)]
  | c :: rest, i, none =>
    if isWordChar c then wordRunsAux rest (i + 1) (some i)
    else wordRunsAux rest (i + 1) none
  | c :: rest, i, some s =>
    if isWordChar c then wordRunsAux rest (i + 1) (some s)
    else (s, i) :: wordRunsAux rest (i + 1) none

/-- All identifier spans of a line. -/
def wordRuns (line : List Char) : List (Nat × Nat) := wordRunsAux line 0 none

/-- `line[:a] + repl + line[b:]`, the splice used when rewriting a
reference. -/
def sliceReplace (line : List Char) (a b : Nat) (repl : List Char) : List Char :=
  line.take a ++ repl ++ line.drop b

/-- The body of the per-error loop of `fix_file` in `fix_fields.py`: skip
out-of-range lines, skip fields without a leading underscore, locate the
identifier containing the error column, and rewrite it (`_field → field`
when the code already shows the underscore form, `field → _field` when it
shows the bare form), counting one fix when a rewrite happens. -/
def applyError (lines : List (List Char)) (e : BuildError) :
    List (List Char) × Nat :=
  if e.line = 0 ∨ lines.length < e.line then (lines, 0)
  else
    let idx := e.line - 1
    let line := lines.getD idx []
    match e.field with
    | [] => (lines, 0)
    | c :: _ =>
      if c ≠ '_' then (lines, 0)
      else
        match e.col with
        | 0 => (lines, 0)
        | col1 + 1 =>
          match (wordRuns line).find? (fun r => r.1 ≤ col1 && col1 < r.2) with
          | none => (lines, 0)
          | some (a, b) =>
            let actual := (line.take b).drop a
            if actual = e.field then
              (lines.set idx (sliceReplace line a b (e.field.drop 1)), 1)
            else if actual ++ ['_'] = e.field ∨ '_' :: actual = e.field then
              (lines.set idx (sliceReplace line a b e.field), 1)
            else (lines, 0)

/-- `fix_file` from `fix_fields.py`: process the file's errors sorted by
line descending, threading the evolving line buffer, and return the updated
lines together with `fixes_made`. -/
def fix_file (lines : List (List Char)) (errors : List BuildError) :
    List (List Char) × Nat :=
  (sortErrorsDesc errors).foldl
    (fun acc e =>
      let r := applyError acc.1 e
      (r.1, acc.2 + r.2))
    (lines, 0)

/-- One step of `group_errors_by_file`: append the error to its file's
bucket, creating the bucket at the end on first sight (Python dicts keep
insertion order). -/
def addErr (gs : List (Nat × List BuildError)) (e : BuildError) :
    List (Nat × List BuildError) :=
  match gs with
  | [] => [(e.file, [e])]
  | (k, es) :: rest =>
    if k = e.file then (k, es ++ [e]) :: rest else (k, es) :: addErr rest e

/-- `group_errors_by_file` from `fix_fields.py`. -/
def groupByFile (errors : List BuildError) : List (Nat × List BuildError) :=
  errors.foldl addErr []

/-- `main` from `fix_fields.py`, as a function of the parsed build errors
and of the file contents (`fileOf` maps a file key to its lines, standing
in for the reads done by `fix_file`): returns 0 immediately when no CS0103
error was parsed, otherwise the total number of fixes across all files. -/
def mainTotal (fileOf : Nat → List (List Char)) (errors : List BuildError) :
    Nat :=
  match errors with
  | [] => 0
  | _ => ((groupByFile errors).map (fun g => (fix_file (fileOf g.1) g.2).2)).sum

/-- The `sys.exit(0 if total > 0 else 1)` at the bottom of
`fix_fields.py`. -/
def scriptExitCode (total : Nat) : Nat := if 0 < total then 0 else 1

end FixFields

namespace FixThisRefs

/-- Python's substring test `needle in hay`. -/
def containsSub (needle : List Char) : List Char → Bool
  | [] => needle.isEmpty
  | c :: rest => needle.isPrefixOf (c :: rest) || containsSub needle rest

/-- The guard of the per-field loop in `fix_file_references`
(`fix_this_references.py`): the field is rewritten only when `_field`
already occurs in the file content, or the content mentions
`HealthCheckBase`, or it mentions `: IAsyncDisposable`. -/
def guardAllows (content : List Char) (field : List Char) : Bool :=
  containsSub ('_' :: field) content ||
  containsSub ("HealthCheckBase".data) content ||
  containsSub (": IAsyncDisposable".data) content

/-- The literal part of the pattern `\bthis\.field\b`. -/
def thisPat (field : List Char) : List Char := "this.".data ++ field

/-- The replacement `this._field`. -/
def thisRepl (field : List Char) : List Char := "this._".data ++ field

/-- Word boundary before the `t` of `this`: start of string or a
non-word predecessor. -/
def boundaryBefore (prev : Option Char) : Bool :=
  match prev with
  | none => true
  | some c => !(isWordChar c)

/-- Word boundary after the field (the fields extracted from CS1061 errors
are identifiers ending in a word character): end of string or a non-word
successor. -/
def boundaryAfterOk (rest : List Char) : Bool :=
  match rest with
  | [] => true
  | c :: _ => !(isWordChar c)

/-- Left-to-right non-overlapping substitution of `\bthis\.field\b` by
`this._field`, as performed by `re.sub`; `prev` is the character preceding
the scan position in the original string. -/
def subThisField (field : List Char) (prev : Option Char)
    (content : List Char) : List Char :=
  match content with
  | [] => []
  | c :: rest =>
    if boundaryBefore prev && (thisPat field).isPrefixOf (c :: rest)
        && boundaryAfterOk ((c :: rest).drop (thisPat field).length) then
      thisRepl field ++
        subThisField field (some (field.getLastD '.'))
          ((c :: rest).drop (thisPat field).length)
    else
      c :: subThisField field (some c) rest
termination_by content.length
decreasing_by
  · have h5 : ("this.".data).length = 5 := rfl
    simp only [List.length_drop, List.length_cons, thisPat, List.length_append, h5]
    omega
  · simp

/-- `re.sub(rf'\bthis\.{field}\b', f'this._{field}', content)`. -/
def replaceThisField (field : List Char) (content : List Char) : List Char :=
  subThisField field none content

/-- One iteration of the `for field in fields` loop of
`fix_file_references`: substitute only when the guard allows it. -/
def fieldStep (content : List Char) (field : List Char) : List Char :=
  if guardAllows content field then replaceThisField field content else content

/-- The whole `for field in fields` loop, threading the evolving content. -/
def processFields (content : List Char) (fields : List (List Char)) :
    List Char :=
  fields.foldl fieldStep content

/-- `fix_file_references` from `fix_this_references.py`: returns the final
content and 1 when the content changed (and was written back), 0
otherwise. -/
def fix_file_references (content : List Char) (fields : List (List Char)) :
    List Char × Nat :=
  let c := processFields content fields
  if c = content then (content, 0) else (c, 1)

end FixThisRefs

namespace JobEngine

/-- Modelled from the spec: the five-state job lifecycle of §4.1 of the
spec; the implementation of the job engine is not part of the
repository (only its black-box HTTP tests are), so the state machine is
reconstructed from the specification text. -/
inductive JobStatus
  | accepted
  | running
  | successful
  | failed
  | dismissed
deriving DecidableEq, Repr

/-- Modelled from the spec: terminal states are `successful`, `failed`,
`dismissed`. -/
def JobStatus.isTerminal : JobStatus → Bool
  | .successful => true
  | .failed => true
  | .dismissed => true
  | _ => false

/-- Modelled from the spec: the Job entity of §3.  Identifiers, timestamps,
payloads and error descriptions are opaque `Nat`s; `inputs` is the list of
supplied input field keys. -/
structure Job where
  jobID : Nat
  processID : Nat
  status : JobStatus
  created : Nat
  started : Option Nat
  finished : Option Nat
  progress : Option Nat
  inputs : List Nat
  error : Option Nat
  version : Nat
deriving DecidableEq, Repr

/-- Modelled from the spec: the mutable shared state of §5 — the Job Record
Store, the Results Store, the set of jobIDs expunged by the Garbage
Collector (so that `getResults` can answer `Gone`), the jobID allocator and
a discrete clock. -/
structure SysState where
  jobs : List Job
  results : List (Nat × Nat)
  expunged : List Nat
  nextId : Nat
  now : Nat
deriving DecidableEq, Repr

/-- The empty system at startup. -/
def initState : SysState :=
  { jobs := [], results := [], expunged := [], nextId := 0, now := 0 }

/-- Modelled from the spec: the external Process Registry of §6, mapping a
processID to its declared input schema, here the list of required input
field keys (the tests probe required inputs via `minOccurs > 0`). -/
abbrev Registry := List (Nat × List Nat)

/-- Modelled from the spec: `inputs` satisfy the declared schema when every
required field is supplied. -/
def validInputs (schema : List Nat) (inputs : List Nat) : Bool :=
  schema.all (fun r => inputs.contains r)

/-- Look a job up in the Job Record Store. -/
def findJob (s : SysState) (jid : Nat) : Option Job :=
  s.jobs.find? (fun j => j.jobID == jid)

/-- Look a result up in the Results Store. -/
def lookupResults (s : SysState) (jid : Nat) : Option Nat :=
  (s.results.find? (fun p => p.1 == jid)).map (·.2)

/-- Modelled from the spec: the error taxonomy of §7 that is surfaced at
the request boundary. -/
inductive ApiError
  | notFound
  | validationError
  | notReady
  | gone
  | conflict
deriving DecidableEq, Repr

/-- Modelled from the spec: `createJob(processID, inputs)` of §4.1 —
validates that the process exists (`NotFound` otherwise) and that the
inputs satisfy its schema (`ValidationError` otherwise, before any Job
record is created); on success stores exactly one new `accepted` Job with
a fresh jobID. -/
def createJob (reg : Registry) (pid : Nat) (inputs : List Nat)
    (s : SysState) : Except ApiError (Job × SysState) :=
  match reg.find? (fun p => p.1 == pid) with
  | none => .error .notFound
  | some pr =>
    if validInputs pr.2 inputs then
      let job : Job :=
        { jobID := s.nextId, processID := pid, status := .accepted,
          created := s.now, started := none, finished := none,
          progress := none, inputs := inputs, error := none, version := 0 }
      .ok (job, { s with jobs := s.jobs ++ [job], nextId := s.nextId + 1 })
    else
      .error .validationError

/-- Replace the job record keyed `jid` by `nj` (CAS winners publish their
updated record through the store). -/
def setJob (s : SysState) (jid : Nat) (nj : Job) : SysState :=
  { s with jobs := s.jobs.map (fun x => if x.jobID == jid then nj else x) }

/-- Result of `dismissJob` at the boundary. -/
inductive DismissResult
  | ok
  | notFound
  | conflict
deriving DecidableEq, Repr

/-- Modelled from the spec: `dismissJob` of §4.4 — an `accepted` job is CAS'd
straight to `dismissed`; a `running` job ends up `dismissed` whether the
executor cooperates within the grace period or the transition is forced;
a terminal job yields `Conflict` with no state change; an unknown job
yields `NotFound`. -/
def dismissJob (s : SysState) (jid : Nat) : DismissResult × SysState :=
  match findJob s jid with
  | none => (.notFound, s)
  | some j =>
    match j.status with
    | .accepted =>
      (.ok, setJob s jid
        { j with status := .dismissed, finished := some s.now,
                 version := j.version + 1 })
    | .running =>
      (.ok, setJob s jid
        { j with status := .dismissed, finished := some s.now,
                 version := j.version + 1 })
    | _ => (.conflict, s)

/-- Modelled from the spec: the worker claims a queued job,
CAS `accepted→running`, setting `started` (§4.3). -/
def workerClaim (s : SysState) (jid : Nat) : Bool × SysState :=
  match findJob s jid with
  | none => (false, s)
  | some j =>
    if j.status = .accepted then
      (true, setJob s jid
        { j with status := .running, started := some s.now,
                 version := j.version + 1 })
    else (false, s)

/-- Modelled from the spec: on normal executor return the worker writes the
outputs to the Results Store and CAS `running→successful`, setting
`finished` (§4.3). -/
def workerComplete (s : SysState) (jid : Nat) (outputs : Nat) :
    Bool × SysState :=
  match findJob s jid with
  | none => (false, s)
  | some j =>
    if j.status = .running then
      (true,
        { setJob s jid
            { j with status := .successful, finished := some s.now,
                     version := j.version + 1 } with
          results := s.results ++ [(jid, outputs)] })
    else (false, s)

/-- Modelled from the spec: on executor-reported error the worker CAS
`running→failed` with the error recorded and `finished` set (§4.3). -/
def workerFail (s : SysState) (jid : Nat) (err : Nat) : Bool × SysState :=
  match findJob s jid with
  | none => (false, s)
  | some j =>
    if j.status = .running then
      (true, setJob s jid
        { j with status := .failed, error := some err,
                 finished := some s.now, version := j.version + 1 })
    else (false, s)

/-- Modelled from the spec: on cancellation-token trip the worker CAS
`running→dismissed`, setting `finished` (§4.3). -/
def workerCancel (s : SysState) (jid : Nat) : Bool × SysState :=
  match findJob s jid with
  | none => (false, s)
  | some j =>
    if j.status = .running then
      (true, setJob s jid
        { j with status := .dismissed, finished := some s.now,
                 version := j.version + 1 })
    else (false, s)

/-- Error kind recorded by the orphan reaper. -/
def interruptedErr : Nat := 0

/-- Modelled from the spec: the orphan-reaper pass of §4.3/§4.6 —
a `running` job whose worker lease expired is transitioned to `failed`
with an `Interrupted` error kind. -/
def reapOrphan (s : SysState) (jid : Nat) : Bool × SysState :=
  match findJob s jid with
  | none => (false, s)
  | some j =>
    if j.status = .running then
      (true, setJob s jid
        { j with status := .failed, error := some interruptedErr,
                 finished := some s.now, version := j.version + 1 })
    else (false, s)

/-- A terminal job whose `finished` timestamp fell out of the retention
window. -/
def expired (s : SysState) (retention : Nat) (j : Job) : Bool :=
  j.status.isTerminal &&
    (match j.finished with
     | some f => f + retention < s.now
     | none => false)

/-- The jobIDs a sweep expunges. -/
def gcVictims (s : SysState) (retention : Nat) : List Nat :=
  (s.jobs.filter (expired s retention)).map Job.jobID

/-- Modelled from the spec: one Garbage Collector sweep of §4.6 — every
terminal job past the retention window is deleted together with its Results
Store entry (both-or-neither), and its jobID is remembered as expunged;
non-terminal jobs are never touched. -/
def gcSweep (s : SysState) (retention : Nat) : SysState :=
  { s with
    jobs := s.jobs.filter (fun j => !(expired s retention j)),
    results := s.results.filter (fun p => !((gcVictims s retention).contains p.1)),
    expunged := s.expunged ++ gcVictims s retention }

/-- Modelled from the spec: `getResults(jobID)` of §4.5 — succeeds with the
stored outputs when the job is `successful`; fails `NotReady` when the job
exists but is not `successful`; fails `Gone` when the job was expunged by
the Garbage Collector; fails `NotFound` when the job is unknown. -/
def getResults (s : SysState) (jid : Nat) : Except ApiError Nat :=
  match findJob s jid with
  | some j =>
    if j.status = .successful then
      match lookupResults s jid with
      | some o => .ok o
      | none => .error .notReady
    else .error .notReady
  | none =>
    if s.expunged.contains jid then .error .gone else .error .notFound

/-- Ordering of the job listing: by `created`, ties broken by `jobID`
(§4.1). -/
def jobLe (a b : Job) : Prop :=
  a.created < b.created ∨ (a.created = b.created ∧ a.jobID ≤ b.jobID)

instance : DecidableRel jobLe := fun a b => by
  unfold jobLe; exact inferInstance

instance : IsTotal Job jobLe := ⟨by intro a b; unfold jobLe; omega⟩

instance : IsTrans Job jobLe := ⟨by intro a b c; unfold jobLe; omega⟩

/-- The full job set in listing order. -/
def sortedJobs (s : SysState) : List Job := List.insertionSort jobLe s.jobs

/-- Modelled from the spec: `listJobs(limit, offset) -> (page, total)` of
§4.1 — a window of the stably ordered job set. -/
def listJobs (s : SysState) (limit offset : Nat) : List Job × Nat :=
  (((sortedJobs s).drop offset).take limit, s.jobs.length)

/-- Modelled from the spec: the operations that mutate the shared state —
the Orchestrator's create and dismiss, the Worker Pool's claim / complete /
fail / cancel, the orphan reaper, the Garbage Collector sweep, and the
clock tick.  Concurrency is modelled by arbitrary interleavings of these
atomic CAS-guarded steps (§5). -/
inductive Op
  | create (pid : Nat) (inputs : List Nat)
  | dismiss (jid : Nat)
  | claim (jid : Nat)
  | complete (jid : Nat) (outputs : Nat)
  | fail (jid : Nat) (err : Nat)
  | cancel (jid : Nat)
  | reap (jid : Nat)
  | gc (retention : Nat)
  | tick
deriving DecidableEq, Repr

/-- The state reached by one operation. -/
def step (reg : Registry) (op : Op) (s : SysState) : SysState :=
  match op with
  | .create pid inputs =>
    match createJob reg pid inputs s with
    | .ok (_, s') => s'
    | .error _ => s
  | .dismiss jid => (dismissJob s jid).2
  | .claim jid => (workerClaim s jid).2
  | .complete jid outputs => (workerComplete s jid outputs).2
  | .fail jid err => (workerFail s jid err).2
  | .cancel jid => (workerCancel s jid).2
  | .reap jid => (reapOrphan s jid).2
  | .gc retention => gcSweep s retention
  | .tick => { s with now := s.now + 1 }

/-- The state reached by a sequence of operations. -/
def run (reg : Registry) (ops : List Op) (s : SysState) : SysState :=
  ops.foldl (fun t op => step reg op t) s

/-- The jobIDs handed out by the successful `create` calls of a run, in
order. -/
def createdIds (reg : Registry) (ops : List Op) (s : SysState) : List Nat :=
  match ops with
  | [] => []
  | op :: rest =>
    match op with
    | .create pid inputs =>
      match createJob reg pid inputs s with
      | .ok (job, s') => job.jobID :: createdIds reg rest s'
      | .error _ => createdIds reg rest s
    | _ => createdIds reg rest (step reg op s)

/-- Execution mode preference of §4.2 (mirroring the `Prefer` header). -/
inductive Mode
  | sync
  | async
deriving DecidableEq, Repr

/-- Response of the Execution Dispatcher at the HTTP boundary (§6). -/
structure ExecResponse where
  code : Nat
  jobID : Option Nat
  body : Option JobStatus
  err : Option ApiError
deriving DecidableEq, Repr

/-- Modelled from the spec: the Execution Dispatcher of §4.2.  Inputs are
validated first (shared with `createJob`).  In `async` mode the accepted
Job reference is returned immediately (HTTP 201).  In `sync` mode the job
is executed inline under the bounded deadline `Tsync`; the executor is
modelled by an oracle giving its duration, outcome and outputs.  If it
finishes within the deadline the finished Job is returned (HTTP 200);
otherwise the Job is left `running` in the Worker Pool's care and an
async-style response (Job reference, `accepted` body) is returned
(HTTP 201).  The third component is the time the caller was blocked, which
never exceeds `Tsync`. -/
def executeRequest (reg : Registry) (mode : Mode) (pid : Nat)
    (inputs : List Nat) (Tsync duration : Nat) (succeeds : Bool)
    (outputs err : Nat) (s : SysState) : ExecResponse × SysState × Nat :=
  match createJob reg pid inputs s with
  | .error e =>
    ({ code := if e = .notFound then 404 else 400, jobID := none,
       body := none, err := some e }, s, 0)
  | .ok (job, s1) =>
    match mode with
    | .async =>
      ({ code := 201, jobID := some job.jobID, body := some .accepted,
         err := none }, s1, 0)
    | .sync =>
      let s2 := (workerClaim s1 job.jobID).2
      if duration ≤ Tsync then
        let s3 :=
          if succeeds then (workerComplete s2 job.jobID outputs).2
          else (workerFail s2 job.jobID err).2
        ({ code := 200, jobID := some job.jobID,
           body := some (if succeeds then .successful else .failed),
           err := none }, s3, duration)
      else
        ({ code := 201, jobID := some job.jobID, body := some .accepted,
           err := none }, s2, Tsync)

/-- The state invariant of §3 of the spec: jobIDs are unique and below the
allocator; `finished` is set iff the status is terminal; outputs exist in
the Results Store iff the status is `successful`; expunged jobIDs stay
below the allocator. -/
def Inv (s : SysState) : Prop :=
  (∀ j ∈ s.jobs, j.jobID < s.nextId) ∧
  (s.jobs.map Job.jobID).Nodup ∧
  (∀ j ∈ s.jobs, j.finished.isSome = j.status.isTerminal) ∧
  (∀ p ∈ s.results, ∃ j ∈ s.jobs, j.jobID = p.1 ∧ j.status = .successful) ∧
  (∀ j ∈ s.jobs, j.status = .successful → ∃ p ∈ s.results, p.1 = j.jobID) ∧
  (∀ i ∈ s.expunged, i < s.nextId)

/-- The `finished`-iff-terminal invariant of §3 in isolation. -/
def FinishedIffTerminal (s : SysState) : Prop :=
  ∀ j ∈ s.jobs, j.finished.isSome = j.status.isTerminal

/-- The persistent consequences of a dismissal: the jobID stays below the
allocator (so it is never reissued), no output for it is in the Results
Store, and the record is either still present as `dismissed` or has been
expunged by the Garbage Collector. -/
def DismissedFrozen (jid : Nat) (s : SysState) : Prop :=
  jid < s.nextId ∧ lookupResults s jid = none ∧
  ((∃ j, findJob s jid = some j ∧ j.status = .dismissed) ∨
    (findJob s jid = none ∧ jid ∈ s.expunged))

/-- A registry with a process `0` without required inputs and a process `1`
requiring the input field `5`. -/
def demoReg : Registry := [(0, []), (1, [5])]

/-- The record created by `createJob demoReg 0 [] initState`. -/
def demoAcceptedJob : Job :=
  { jobID := 0, processID := 0, status := .accepted, created := 0,
    started := none, finished := none, progress := none, inputs := [],
    error := none, version := 0 }

/-- `initState` after one successful `createJob`. -/
def demoCreatedState : SysState :=
  { jobs := [demoAcceptedJob], results := [], expunged := [], nextId := 1,
    now := 0 }

/-- A job that ran to completion. -/
def demoSuccessJob : Job :=
  { jobID := 0, processID := 0, status := .successful, created := 0,
    started := some 0, finished := some 0, progress := none, inputs := [],
    error := none, version := 2 }

/-- A state holding one completed job with its stored output. -/
def demoDoneState : SysState :=
  { jobs := [demoSuccessJob], results := [(0, 42)], expunged := [],
    nextId := 1, now := 3 }

/-- Three accepted jobs with interleaved creation times, for exercising the
listing order. -/
def demoListState : SysState :=
  { jobs :=
      [{ demoAcceptedJob with jobID := 0, created := 1 },
       { demoAcceptedJob with jobID := 1, created := 0 },
       { demoAcceptedJob with jobID := 2, created := 0 }],
    results := [], expunged := [], nextId := 3, now := 2 }

end JobEngine

/-- C9: when `fix_fields.py` runs as a script, the process exit status is 0
iff at least one fix was applied across all files; in particular with no
CS0103 errors in the build output, `main` returns 0 and the process exits
with status 1. -/
theorem fixFields_exit_status_iff_fixes
    (fileOf : Nat → List (List Char)) (errors : List FixFields.BuildError) :
    (FixFields.scriptExitCode (FixFields.mainTotal fileOf errors) = 0 ↔
      0 < FixFields.mainTotal fileOf errors) ∧
    FixFields.mainTotal fileOf [] = 0 ∧
    FixFields.scriptExitCode (FixFields.mainTotal fileOf []) = 1 := by
  refine ⟨?_, rfl, rfl⟩
  unfold FixFields.scriptExitCode
  split <;> simp_all

/-- C10: `fix_file_references` rewrites `this.field` only for fields whose
guard holds (the content contains `_field`, or `HealthCheckBase`, or
`: IAsyncDisposable`); when no field of the error set satisfies the guard,
the content is left unchanged and the function returns 0. -/
theorem fixThisRefs_guarded_rewrite
    (content : List Char) (fields : List (List Char)) :
    (∀ f, FixThisRefs.guardAllows content f = false →
      FixThisRefs.fieldStep content f = content) ∧
    ((∀ f ∈ fields, FixThisRefs.guardAllows content f = false) →
      FixThisRefs.fix_file_references content fields = (content, 0)) := by
  constructor
  · intro f h
    simp [FixThisRefs.fieldStep, h]
  · intro h
    have hp : FixThisRefs.processFields content fields = content := by
      induction fields with
      | nil => rfl
      | cons f fs ih =>
        have hf : FixThisRefs.fieldStep content f = content := by
          simp [FixThisRefs.fieldStep, h f (List.mem_cons_self f fs)]
        simp only [FixThisRefs.processFields, List.foldl_cons, hf]
        exact ih (fun g hg => h g (List.mem_cons_of_mem f hg))
    simp [FixThisRefs.fix_file_references, hp]

/-- Witness for C10: a file containing none of the guard triggers is left
untouched with return value 0. -/
theorem fixThisRefs_guarded_rewrite_witness :
    FixThisRefs.fix_file_references ("var x = this.x;".data) [['x']] =
      ("var x = this.x;".data, 0) :=
  (fixThisRefs_guarded_rewrite ("var x = this.x;".data) [['x']]).2
    (by intro f hf; simp at hf; subst hf; decide)

namespace JobEngine

theorem findJob_some_id {s : SysState} {jid : Nat} {j : Job}
    (h : findJob s jid = some j) : j.jobID = jid := by
  have := List.find?_some h
  simpa using this

theorem findJob_mem {s : SysState} {jid : Nat} {j : Job}
    (h : findJob s jid = some j) : j ∈ s.jobs :=
  List.mem_of_find?_eq_some h

theorem eq_of_same_id {l : List Job} (hnd : (l.map Job.jobID).Nodup)
    {x y : Job} (hx : x ∈ l) (hy : y ∈ l) (h : x.jobID = y.jobID) : x = y :=
  List.inj_on_of_nodup_map hnd hx hy h

theorem map_id_setJob {s : SysState} {jid : Nat} {nj : Job}
    (hid : nj.jobID = jid) :
    (setJob s jid nj).jobs.map Job.jobID = s.jobs.map Job.jobID := by
  simp only [setJob, List.map_map]
  apply List.map_congr_left
  intro x _
  by_cases h : x.jobID = jid
  · simp [Function.comp, h, hid]
  · simp [Function.comp, h]

theorem findJob_setJob {s : SysState} {jid : Nat} {nj : Job}
    (hid : nj.jobID = jid) (q : Nat) :
    findJob (setJob s jid nj) q =
      (findJob s q).map (fun x => if x.jobID == jid then nj else x) := by
  simp only [findJob, setJob]
  rw [List.find?_map]
  have hfg : ((fun j : Job => j.jobID == q) ∘
      fun x : Job => if x.jobID == jid then nj else x) =
      fun j : Job => j.jobID == q := by
    funext x
    simp only [Function.comp]
    by_cases h : x.jobID = jid
    · simp [h, hid]
    · simp [h]
  rw [hfg]

theorem findJob_setJob_self {s : SysState} {jid : Nat} {j nj : Job}
    (hf : findJob s jid = some j) (hid : nj.jobID = jid) :
    findJob (setJob s jid nj) jid = some nj := by
  rw [findJob_setJob hid, hf]
  simp [findJob_some_id hf]

theorem findJob_setJob_other {s : SysState} {jid : Nat} {nj : Job}
    (hid : nj.jobID = jid) {q : Nat} (hne : q ≠ jid) :
    findJob (setJob s jid nj) q = findJob s q := by
  rw [findJob_setJob hid]
  cases hfq : findJob s q with
  | none => rfl
  | some x =>
    have hx := findJob_some_id hfq
    simp [hx, hne]

theorem length_setJob (s : SysState) (jid : Nat) (nj : Job) :
    (setJob s jid nj).jobs.length = s.jobs.length := by
  simp [setJob]

theorem createJob_ok_spec {reg : Registry} {pid : Nat} {ins : List Nat}
    {s : SysState} {job : Job} {s' : SysState}
    (h : createJob reg pid ins s = .ok (job, s')) :
    job = { jobID := s.nextId, processID := pid, status := .accepted,
            created := s.now, started := none, finished := none,
            progress := none, inputs := ins, error := none, version := 0 } ∧
    s' = { s with jobs := s.jobs ++ [job], nextId := s.nextId + 1 } := by
  unfold createJob at h
  split at h
  · exact absurd h (by simp)
  · split at h
    · simp only [Except.ok.injEq, Prod.mk.injEq] at h
      obtain ⟨hj, hs⟩ := h
      subst hj
      exact ⟨rfl, hs.symm⟩
    · exact absurd h (by simp)

theorem find?_filter_of_none {α : Type} {p q : α → Bool} {l : List α}
    (h : List.find? p l = none) : List.find? p (l.filter q) = none := by
  rw [List.find?_eq_none] at h ⊢
  intro x hx
  exact h x (List.mem_filter.1 hx).1

theorem find?_filter_nodup {l : List Job} {jid : Nat} {j : Job}
    {q : Job → Bool} (hnd : (l.map Job.jobID).Nodup)
    (hf : l.find? (fun x => x.jobID == jid) = some j) (hq : q j = true) :
    (l.filter q).find? (fun x => x.jobID == jid) = some j := by
  induction l with
  | nil => simp at hf
  | cons a t ih =>
    simp only [List.map_cons, List.nodup_cons] at hnd
    obtain ⟨_, hnt⟩ := hnd
    by_cases ha : a.jobID = jid
    · rw [List.find?_cons_of_pos _ (by simp [ha])] at hf
      injection hf with hf
      subst hf
      rw [List.filter_cons_of_pos hq]
      exact List.find?_cons_of_pos _ (by simp [ha])
    · rw [List.find?_cons_of_neg _ (by simp [ha])] at hf
      by_cases hqa : q a = true
      · rw [List.filter_cons_of_pos hqa,
          List.find?_cons_of_neg _ (by simp [ha])]
        exact ih hnt hf
      · rw [List.filter_cons_of_neg hqa]
        exact ih hnt hf

theorem find?_filter_victim {l : List Job} {jid : Nat} {j : Job}
    {q : Job → Bool} (hnd : (l.map Job.jobID).Nodup)
    (hf : l.find? (fun x => x.jobID == jid) = some j) (hq : q j = false) :
    (l.filter q).find? (fun x => x.jobID == jid) = none := by
  rw [List.find?_eq_none]
  intro x hx hpx
  have hxl := (List.mem_filter.1 hx).1
  have hqx := (List.mem_filter.1 hx).2
  have hxid : x.jobID = jid := by simpa using hpx
  have hjid : j.jobID = jid := by simpa using List.find?_some hf
  have : x = j :=
    eq_of_same_id hnd hxl (List.mem_of_find?_eq_some hf)
      (hxid.trans hjid.symm)
  subst this
  rw [hq] at hqx
  cases hqx

end JobEngine

namespace JobEngine

theorem inv_setJob {s : SysState} {jid : Nat} {j nj : Job} (hInv : Inv s)
    (hf : findJob s jid = some j) (hid : nj.jobID = j.jobID)
    (hfin : nj.finished.isSome = nj.status.isTerminal)
    (hjns : j.status ≠ .successful) (hnjns : nj.status ≠ .successful) :
    Inv (setJob s jid nj) := by
  obtain ⟨i1, i2, i3, i4, i5, i6⟩ := hInv
  have hjid : j.jobID = jid := findJob_some_id hf
  have hjmem : j ∈ s.jobs := findJob_mem hf
  have hmap : (setJob s jid nj).jobs.map Job.jobID = s.jobs.map Job.jobID :=
    map_id_setJob (hid.trans hjid)
  have hmm : ∀ y ∈ (setJob s jid nj).jobs,
      ∃ x ∈ s.jobs, y = if x.jobID == jid then nj else x := by
    intro y hy
    simp only [setJob, List.mem_map] at hy
    obtain ⟨x, hx, hxy⟩ := hy
    exact ⟨x, hx, hxy.symm⟩
  have hmatch : ∀ x ∈ s.jobs, x.jobID = jid → x = j := by
    intro x hx hxid
    exact eq_of_same_id i2 hx hjmem (hxid.trans hjid.symm)
  refine ⟨?_, ?_, ?_, ?_, ?_, i6⟩
  · intro y hy
    obtain ⟨x, hx, rfl⟩ := hmm y hy
    by_cases h : x.jobID = jid
    · simpa [h, hid, hjid] using i1 j hjmem
    · simpa [h] using i1 x hx
  · rw [hmap]; exact i2
  · intro y hy
    obtain ⟨x, hx, rfl⟩ := hmm y hy
    by_cases h : x.jobID = jid
    · have := hmatch x hx h
      simp [h, hfin]
    · simpa [h] using i3 x hx
  · intro p hp
    obtain ⟨x, hx, hxid, hxs⟩ := i4 p hp
    have hne : x.jobID ≠ jid := by
      intro h
      exact hjns ((hmatch x hx h) ▸ hxs)
    refine ⟨if x.jobID == jid then nj else x, ?_, ?_⟩
    · exact List.mem_map_of_mem _ hx
    · rw [if_neg (by simp [hne])]
      exact ⟨hxid, hxs⟩
  · intro y hy hys
    obtain ⟨x, hx, rfl⟩ := hmm y hy
    by_cases h : x.jobID = jid
    · rw [if_pos (by simp [h])] at hys
      exact absurd hys hnjns
    · rw [if_neg (by simp [h])] at hys ⊢
      exact i5 x hx hys

theorem inv_create {reg : Registry} {pid : Nat} {ins : List Nat}
    {s : SysState} {job : Job} {s' : SysState} (hInv : Inv s)
    (h : createJob reg pid ins s = .ok (job, s')) : Inv s' := by
  obtain ⟨i1, i2, i3, i4, i5, i6⟩ := hInv
  obtain ⟨hjob, hs⟩ := createJob_ok_spec h
  subst hs
  refine ⟨?_, ?_, ?_, ?_, ?_, ?_⟩
  · intro y hy
    rcases List.mem_append.1 hy with hl | hr
    · exact Nat.lt_succ_of_lt (i1 y hl)
    · simp only [List.mem_singleton] at hr
      subst hr
      simp [hjob]
  · rw [List.map_append, List.nodup_append]
    refine ⟨i2, by simp, ?_⟩
    intro a ha hb
    simp only [List.map_cons, List.map_nil, List.mem_singleton, hjob] at hb
    subst hb
    simp only [List.mem_map] at ha
    obtain ⟨x, hx, hxa⟩ := ha
    exact absurd (hxa ▸ i1 x hx) (lt_irrefl _)
  · intro y hy
    rcases List.mem_append.1 hy with hl | hr
    · exact i3 y hl
    · simp only [List.mem_singleton] at hr
      subst hr
      simp [hjob, JobStatus.isTerminal]
  · intro p hp
    obtain ⟨x, hx, hxi, hxs⟩ := i4 p hp
    exact ⟨x, List.mem_append_left _ hx, hxi, hxs⟩
  · intro y hy hys
    rcases List.mem_append.1 hy with hl | hr
    · exact i5 y hl hys
    · simp only [List.mem_singleton] at hr
      subst hr
      rw [hjob] at hys
      cases hys
  · intro i hi
    exact Nat.lt_succ_of_lt (i6 i hi)

theorem inv_complete {s : SysState} {jid outputs : Nat} (hInv : Inv s) :
    Inv (workerComplete s jid outputs).2 := by
  unfold workerComplete
  cases hf : findJob s jid with
  | none => exact hInv
  | some j =>
    by_cases hst : j.status = .running
    · obtain ⟨i1, i2, i3, i4, i5, i6⟩ := hInv
      simp only [hst, if_pos rfl]
      set nj : Job :=
        { j with status := .successful, finished := some s.now,
                 version := j.version + 1 } with hnj
      have hjid : j.jobID = jid := findJob_some_id hf
      have hjmem : j ∈ s.jobs := findJob_mem hf
      have hmap : (setJob s jid nj).jobs.map Job.jobID =
          s.jobs.map Job.jobID := map_id_setJob (by simp [hnj, hjid])
      have hmm : ∀ y ∈ (setJob s jid nj).jobs,
          ∃ x ∈ s.jobs, y = if x.jobID == jid then nj else x := by
        intro y hy
        simp only [setJob, List.mem_map] at hy
        obtain ⟨x, hx, hxy⟩ := hy
        exact ⟨x, hx, hxy.symm⟩
      have hmatch : ∀ x ∈ s.jobs, x.jobID = jid → x = j := by
        intro x hx hxid
        exact eq_of_same_id i2 hx hjmem (hxid.trans hjid.symm)
      refine ⟨?_, ?_, ?_, ?_, ?_, ?_⟩
      · intro y hy
        obtain ⟨x, hx, rfl⟩ := hmm y hy
        by_cases h : x.jobID = jid
        · simpa [h, hnj, hjid] using i1 j hjmem
        · simpa [h] using i1 x hx
      · show ((setJob s jid nj).jobs.map Job.jobID).Nodup
        rw [hmap]; exact i2
      · intro y hy
        obtain ⟨x, hx, rfl⟩ := hmm y hy
        by_cases h : x.jobID = jid
        · simp [h, hnj, JobStatus.isTerminal]
        · simpa [h] using i3 x hx
      · intro p hp
        rcases List.mem_append.1 hp with hl | hr
        · obtain ⟨x, hx, hxi, hxs⟩ := i4 p hl
          have hne : x.jobID ≠ jid := by
            intro h
            rw [hmatch x hx h] at hxs
            rw [hxs] at hst
            cases hst
          refine ⟨if x.jobID == jid then nj else x, ?_, ?_⟩
          · exact List.mem_map_of_mem _ hx
          · rw [if_neg (by simp [hne])]
            exact ⟨hxi, hxs⟩
        · simp only [List.mem_singleton] at hr
          subst hr
          refine ⟨nj, ?_, by simp [hnj, hjid]⟩
          have : (if j.jobID == jid then nj else j) ∈
              (setJob s jid nj).jobs := List.mem_map_of_mem _ hjmem
          simpa [hjid] using this
      · intro y hy hys
        obtain ⟨x, hx, rfl⟩ := hmm y hy
        by_cases h : x.jobID = jid
        · refine ⟨(jid, outputs), List.mem_append_right _ (by simp), ?_⟩
          simp [h, hnj, hjid]
        · rw [if_neg (by simp [h])] at hys
          obtain ⟨p, hp, hpe⟩ := i5 x hx hys
          exact ⟨p, List.mem_append_left _ hp, by simp [h, hpe]⟩
      · exact i6
    · simp only [if_neg hst]
      exact hInv

end JobEngine

namespace JobEngine

theorem inv_dismiss {s : SysState} {jid : Nat} (hInv : Inv s) :
    Inv (dismissJob s jid).2 := by
  cases hf : findJob s jid with
  | none =>
    simp only [dismissJob, hf]
    exact hInv
  | some j =>
    cases hst : j.status with
    | accepted =>
      simp only [dismissJob, hf, hst]
      exact inv_setJob hInv hf rfl rfl (by simp [hst]) (by simp)
    | running =>
      simp only [dismissJob, hf, hst]
      exact inv_setJob hInv hf rfl rfl (by simp [hst]) (by simp)
    | successful =>
      simp only [dismissJob, hf, hst]
      exact hInv
    | failed =>
      simp only [dismissJob, hf, hst]
      exact hInv
    | dismissed =>
      simp only [dismissJob, hf, hst]
      exact hInv

theorem inv_claim {s : SysState} {jid : Nat} (hInv : Inv s) :
    Inv (workerClaim s jid).2 := by
  cases hf : findJob s jid with
  | none =>
    simp only [workerClaim, hf]
    exact hInv
  | some j =>
    by_cases hst : j.status = .accepted
    · simp only [workerClaim, hf, if_pos hst]
      have hfin : j.finished.isSome = false := by
        have h3 := hInv.2.2.1 j (findJob_mem hf)
        rw [hst] at h3
        simpa [JobStatus.isTerminal] using h3
      exact inv_setJob hInv hf rfl
        (by simp [JobStatus.isTerminal, hfin]) (by simp [hst]) (by simp)
    · simp only [workerClaim, hf, if_neg hst]
      exact hInv

theorem inv_fail {s : SysState} {jid err : Nat} (hInv : Inv s) :
    Inv (workerFail s jid err).2 := by
  cases hf : findJob s jid with
  | none =>
    simp only [workerFail, hf]
    exact hInv
  | some j =>
    by_cases hst : j.status = .running
    · simp only [workerFail, hf, if_pos hst]
      exact inv_setJob hInv hf rfl rfl (by simp [hst]) (by simp)
    · simp only [workerFail, hf, if_neg hst]
      exact hInv

theorem inv_cancel {s : SysState} {jid : Nat} (hInv : Inv s) :
    Inv (workerCancel s jid).2 := by
  cases hf : findJob s jid with
  | none =>
    simp only [workerCancel, hf]
    exact hInv
  | some j =>
    by_cases hst : j.status = .running
    · simp only [workerCancel, hf, if_pos hst]
      exact inv_setJob hInv hf rfl rfl (by simp [hst]) (by simp)
    · simp only [workerCancel, hf, if_neg hst]
      exact hInv

theorem inv_reap {s : SysState} {jid : Nat} (hInv : Inv s) :
    Inv (reapOrphan s jid).2 := by
  cases hf : findJob s jid with
  | none =>
    simp only [reapOrphan, hf]
    exact hInv
  | some j =>
    by_cases hst : j.status = .running
    · simp only [reapOrphan, hf, if_pos hst]
      exact inv_setJob hInv hf rfl rfl (by simp [hst]) (by simp)
    · simp only [reapOrphan, hf, if_neg hst]
      exact hInv

theorem inv_gc {s : SysState} {retention : Nat} (hInv : Inv s) :
    Inv (gcSweep s retention) := by
  obtain ⟨i1, i2, i3, i4, i5, i6⟩ := hInv
  refine ⟨?_, ?_, ?_, ?_, ?_, ?_⟩
  · intro y hy
    exact i1 y (List.mem_filter.1 hy).1
  · exact List.Nodup.sublist
      (List.Sublist.map Job.jobID (List.filter_sublist s.jobs)) i2
  · intro y hy
    exact i3 y (List.mem_filter.1 hy).1
  · intro p hp
    obtain ⟨hpm, hpv⟩ := List.mem_filter.1 hp
    have hnv : p.1 ∉ gcVictims s retention := by simpa using hpv
    obtain ⟨x, hx, hxi, hxs⟩ := i4 p hpm
    have hxe : expired s retention x = false := by
      cases hexp : expired s retention x
      · rfl
      · exfalso
        apply hnv
        rw [← hxi]
        exact List.mem_map_of_mem _ (List.mem_filter.2 ⟨hx, hexp⟩)
    refine ⟨x, List.mem_filter.2 ⟨hx, by simp [hxe]⟩, hxi, hxs⟩
  · intro y hy hys
    obtain ⟨hym, hye⟩ := List.mem_filter.1 hy
    have hye' : expired s retention y = false := by simpa using hye
    obtain ⟨p, hp, hpe⟩ := i5 y hym hys
    have hnv : p.1 ∉ gcVictims s retention := by
      intro hv
      simp only [gcVictims, List.mem_map] at hv
      obtain ⟨z, hz, hzv⟩ := hv
      obtain ⟨hzm, hze⟩ := List.mem_filter.1 hz
      have hzy : z = y := eq_of_same_id i2 hzm hym (hzv.trans hpe)
      subst hzy
      rw [hye'] at hze
      cases hze
    refine ⟨p, List.mem_filter.2 ⟨hp, by simpa using hnv⟩, hpe⟩
  · intro i hi
    rcases List.mem_append.1 hi with hl | hr
    · exact i6 i hl
    · simp only [gcVictims, List.mem_map] at hr
      obtain ⟨z, hz, hzv⟩ := hr
      rw [← hzv]
      exact i1 z (List.mem_filter.1 hz).1

theorem inv_step {reg : Registry} {op : Op} {s : SysState} (hInv : Inv s) :
    Inv (step reg op s) := by
  cases op with
  | create pid ins =>
    simp only [step]
    cases hc : createJob reg pid ins s with
    | ok pr =>
      obtain ⟨job, s'⟩ := pr
      exact inv_create hInv hc
    | error e => exact hInv
  | dismiss jid => exact inv_dismiss hInv
  | claim jid => exact inv_claim hInv
  | complete jid outputs => exact inv_complete hInv
  | fail jid err => exact inv_fail hInv
  | cancel jid => exact inv_cancel hInv
  | reap jid => exact inv_reap hInv
  | gc retention => exact inv_gc hInv
  | tick => exact hInv

theorem inv_init : Inv initState := by
  refine ⟨?_, ?_, ?_, ?_, ?_, ?_⟩ <;> simp [initState]

theorem inv_run {reg : Registry} {ops : List Op} {s : SysState}
    (hInv : Inv s) : Inv (run reg ops s) := by
  induction ops generalizing s with
  | nil => exact hInv
  | cons op rest ih => exact ih (inv_step hInv)

end JobEngine

namespace JobEngine

theorem findJob_step_terminal {reg : Registry} {op : Op} {s : SysState}
    {jid : Nat} {j : Job} (hInv : Inv s) (hf : findJob s jid = some j)
    (ht : j.status.isTerminal = true) :
    findJob (step reg op s) jid = some j ∨
      (findJob (step reg op s) jid = none ∧
        jid ∈ (step reg op s).expunged) := by
  cases op with
  | create pid ins =>
    simp only [step]
    cases hc : createJob reg pid ins s with
    | error e => exact .inl hf
    | ok pr =>
      obtain ⟨job, s'⟩ := pr
      obtain ⟨hjob, hs⟩ := createJob_ok_spec hc
      subst hs
      left
      show List.find? (fun x => x.jobID == jid) (s.jobs ++ [job]) = some j
      rw [List.find?_append]
      have hf' : List.find? (fun x => x.jobID == jid) s.jobs = some j := hf
      rw [hf']
      rfl
  | dismiss q =>
    by_cases hq : jid = q
    · subst hq
      cases hst : j.status with
      | accepted => simp [hst, JobStatus.isTerminal] at ht
      | running => simp [hst, JobStatus.isTerminal] at ht
      | successful =>
        left
        simp only [step, dismissJob, hf, hst]
      | failed =>
        left
        simp only [step, dismissJob, hf, hst]
      | dismissed =>
        left
        simp only [step, dismissJob, hf, hst]
    · cases hfq : findJob s q with
      | none =>
        simp only [step, dismissJob, hfq]
        exact .inl hf
      | some jq =>
        cases hsq : jq.status with
        | accepted =>
          left
          simp only [step, dismissJob, hfq, hsq]
          refine Eq.trans (findJob_setJob_other ?_ hq) hf
          show jq.jobID = q
          exact findJob_some_id hfq
        | running =>
          left
          simp only [step, dismissJob, hfq, hsq]
          refine Eq.trans (findJob_setJob_other ?_ hq) hf
          show jq.jobID = q
          exact findJob_some_id hfq
        | successful =>
          simp only [step, dismissJob, hfq, hsq]
          exact .inl hf
        | failed =>
          simp only [step, dismissJob, hfq, hsq]
          exact .inl hf
        | dismissed =>
          simp only [step, dismissJob, hfq, hsq]
          exact .inl hf
  | claim q =>
    cases hfq : findJob s q with
    | none =>
      simp only [step, workerClaim, hfq]
      exact .inl hf
    | some jq =>
      by_cases hsq : jq.status = .accepted
      · by_cases hq : jid = q
        · subst hq
          rw [hf] at hfq
          injection hfq with e
          subst e
          rw [hsq] at ht
          simp [JobStatus.isTerminal] at ht
        · left
          simp only [step, workerClaim, hfq, if_pos hsq]
          refine Eq.trans (findJob_setJob_other ?_ hq) hf
          show jq.jobID = q
          exact findJob_some_id hfq
      · simp only [step, workerClaim, hfq, if_neg hsq]
        exact .inl hf
  | complete q outputs =>
    cases hfq : findJob s q with
    | none =>
      simp only [step, workerComplete, hfq]
      exact .inl hf
    | some jq =>
      by_cases hsq : jq.status = .running
      · by_cases hq : jid = q
        · subst hq
          rw [hf] at hfq
          injection hfq with e
          subst e
          rw [hsq] at ht
          simp [JobStatus.isTerminal] at ht
        · left
          simp only [step, workerComplete, hfq, if_pos hsq]
          show findJob (setJob s q _) jid = some j
          refine Eq.trans (findJob_setJob_other ?_ hq) hf
          show jq.jobID = q
          exact findJob_some_id hfq
      · simp only [step, workerComplete, hfq, if_neg hsq]
        exact .inl hf
  | fail q err =>
    cases hfq : findJob s q with
    | none =>
      simp only [step, workerFail, hfq]
      exact .inl hf
    | some jq =>
      by_cases hsq : jq.status = .running
      · by_cases hq : jid = q
        · subst hq
          rw [hf] at hfq
          injection hfq with e
          subst e
          rw [hsq] at ht
          simp [JobStatus.isTerminal] at ht
        · left
          simp only [step, workerFail, hfq, if_pos hsq]
          refine Eq.trans (findJob_setJob_other ?_ hq) hf
          show jq.jobID = q
          exact findJob_some_id hfq
      · simp only [step, workerFail, hfq, if_neg hsq]
        exact .inl hf
  | cancel q =>
    cases hfq : findJob s q with
    | none =>
      simp only [step, workerCancel, hfq]
      exact .inl hf
    | some jq =>
      by_cases hsq : jq.status = .running
      · by_cases hq : jid = q
        · subst hq
          rw [hf] at hfq
          injection hfq with e
          subst e
          rw [hsq] at ht
          simp [JobStatus.isTerminal] at ht
        · left
          simp only [step, workerCancel, hfq, if_pos hsq]
          refine Eq.trans (findJob_setJob_other ?_ hq) hf
          show jq.jobID = q
          exact findJob_some_id hfq
      · simp only [step, workerCancel, hfq, if_neg hsq]
        exact .inl hf
  | reap q =>
    cases hfq : findJob s q with
    | none =>
      simp only [step, reapOrphan, hfq]
      exact .inl hf
    | some jq =>
      by_cases hsq : jq.status = .running
      · by_cases hq : jid = q
        · subst hq
          rw [hf] at hfq
          injection hfq with e
          subst e
          rw [hsq] at ht
          simp [JobStatus.isTerminal] at ht
        · left
          simp only [step, reapOrphan, hfq, if_pos hsq]
          refine Eq.trans (findJob_setJob_other ?_ hq) hf
          show jq.jobID = q
          exact findJob_some_id hfq
      · simp only [step, reapOrphan, hfq, if_neg hsq]
        exact .inl hf
  | gc r =>
    by_cases hexp : expired s r j = true
    · right
      constructor
      · exact find?_filter_victim hInv.2.1 hf (by simp [hexp])
      · simp only [step, gcSweep]
        apply List.mem_append_right
        simp only [gcVictims]
        rw [← findJob_some_id hf]
        exact List.mem_map_of_mem _ (List.mem_filter.2 ⟨findJob_mem hf, hexp⟩)
    · left
      have hexp' : expired s r j = false := by
        cases h : expired s r j
        · rfl
        · exact absurd h hexp
      exact find?_filter_nodup hInv.2.1 hf (by simp [hexp'])
  | tick =>
    exact .inl hf

end JobEngine

namespace JobEngine

theorem findJob_setJob_none {s : SysState} {q jid : Nat} {nj : Job}
    (hid : nj.jobID = q) (hnone : findJob s jid = none) :
    findJob (setJob s q nj) jid = none := by
  rw [findJob_setJob hid, hnone]
  rfl

theorem nextId_step (reg : Registry) (op : Op) (s : SysState) :
    s.nextId ≤ (step reg op s).nextId := by
  cases op with
  | create pid ins =>
    simp only [step]
    cases hc : createJob reg pid ins s with
    | error e => exact le_refl _
    | ok pr =>
      obtain ⟨job, s'⟩ := pr
      obtain ⟨hjob, hs⟩ := createJob_ok_spec hc
      subst hs
      exact Nat.le_succ _
  | dismiss q =>
    cases hfq : findJob s q with
    | none => simp [step, dismissJob, hfq]
    | some jq =>
      cases hsq : jq.status <;> simp [step, dismissJob, hfq, hsq, setJob]
  | claim q =>
    cases hfq : findJob s q with
    | none => simp [step, workerClaim, hfq]
    | some jq =>
      by_cases hsq : jq.status = .accepted <;>
        simp [step, workerClaim, hfq, hsq, setJob]
  | complete q outputs =>
    cases hfq : findJob s q with
    | none => simp [step, workerComplete, hfq]
    | some jq =>
      by_cases hsq : jq.status = .running <;>
        simp [step, workerComplete, hfq, hsq, setJob]
  | fail q err =>
    cases hfq : findJob s q with
    | none => simp [step, workerFail, hfq]
    | some jq =>
      by_cases hsq : jq.status = .running <;>
        simp [step, workerFail, hfq, hsq, setJob]
  | cancel q =>
    cases hfq : findJob s q with
    | none => simp [step, workerCancel, hfq]
    | some jq =>
      by_cases hsq : jq.status = .running <;>
        simp [step, workerCancel, hfq, hsq, setJob]
  | reap q =>
    cases hfq : findJob s q with
    | none => simp [step, reapOrphan, hfq]
    | some jq =>
      by_cases hsq : jq.status = .running <;>
        simp [step, reapOrphan, hfq, hsq, setJob]
  | gc r => simp [step, gcSweep]
  | tick => simp [step]

theorem expunged_step_mem {reg : Registry} {op : Op} {s : SysState}
    {jid : Nat} (h : jid ∈ s.expunged) : jid ∈ (step reg op s).expunged := by
  cases op with
  | create pid ins =>
    simp only [step]
    cases hc : createJob reg pid ins s with
    | error e => exact h
    | ok pr =>
      obtain ⟨job, s'⟩ := pr
      obtain ⟨hjob, hs⟩ := createJob_ok_spec hc
      subst hs
      exact h
  | dismiss q =>
    cases hfq : findJob s q with
    | none => simpa only [step, dismissJob, hfq] using h
    | some jq =>
      cases hsq : jq.status <;>
        simpa only [step, dismissJob, hfq, hsq] using h
  | claim q =>
    cases hfq : findJob s q with
    | none => simpa only [step, workerClaim, hfq] using h
    | some jq =>
      by_cases hsq : jq.status = .accepted
      · simpa only [step, workerClaim, hfq, if_pos hsq] using h
      · simpa only [step, workerClaim, hfq, if_neg hsq] using h
  | complete q outputs =>
    cases hfq : findJob s q with
    | none => simpa only [step, workerComplete, hfq] using h
    | some jq =>
      by_cases hsq : jq.status = .running
      · simpa only [step, workerComplete, hfq, if_pos hsq] using h
      · simpa only [step, workerComplete, hfq, if_neg hsq] using h
  | fail q err =>
    cases hfq : findJob s q with
    | none => simpa only [step, workerFail, hfq] using h
    | some jq =>
      by_cases hsq : jq.status = .running
      · simpa only [step, workerFail, hfq, if_pos hsq] using h
      · simpa only [step, workerFail, hfq, if_neg hsq] using h
  | cancel q =>
    cases hfq : findJob s q with
    | none => simpa only [step, workerCancel, hfq] using h
    | some jq =>
      by_cases hsq : jq.status = .running
      · simpa only [step, workerCancel, hfq, if_pos hsq] using h
      · simpa only [step, workerCancel, hfq, if_neg hsq] using h
  | reap q =>
    cases hfq : findJob s q with
    | none => simpa only [step, reapOrphan, hfq] using h
    | some jq =>
      by_cases hsq : jq.status = .running
      · simpa only [step, reapOrphan, hfq, if_pos hsq] using h
      · simpa only [step, reapOrphan, hfq, if_neg hsq] using h
  | gc r => exact List.mem_append_left _ h
  | tick => exact h

theorem findJob_step_none {reg : Registry} {op : Op} {s : SysState}
    {jid : Nat} (hlt : jid < s.nextId) (hnone : findJob s jid = none) :
    findJob (step reg op s) jid = none := by
  cases op with
  | create pid ins =>
    simp only [step]
    cases hc : createJob reg pid ins s with
    | error e => exact hnone
    | ok pr =>
      obtain ⟨job, s'⟩ := pr
      obtain ⟨hjob, hs⟩ := createJob_ok_spec hc
      subst hs
      show List.find? (fun x => x.jobID == jid) (s.jobs ++ [job]) = none
      have h1 : List.find? (fun x => x.jobID == jid) s.jobs = none := hnone
      have h2 : job.jobID ≠ jid := by
        rw [hjob]
        show s.nextId ≠ jid
        omega
      rw [List.find?_append, h1, List.find?_cons_of_neg _ (by simp [h2])]
      rfl
  | dismiss q =>
    cases hfq : findJob s q with
    | none => simpa only [step, dismissJob, hfq] using hnone
    | some jq =>
      cases hsq : jq.status <;> simp only [step, dismissJob, hfq, hsq]
      case accepted =>
        refine findJob_setJob_none ?_ hnone
        show jq.jobID = q
        exact findJob_some_id hfq
      case running =>
        refine findJob_setJob_none ?_ hnone
        show jq.jobID = q
        exact findJob_some_id hfq
      all_goals exact hnone
  | claim q =>
    cases hfq : findJob s q with
    | none => simpa only [step, workerClaim, hfq] using hnone
    | some jq =>
      by_cases hsq : jq.status = .accepted
      · simp only [step, workerClaim, hfq, if_pos hsq]
        refine findJob_setJob_none ?_ hnone
        show jq.jobID = q
        exact findJob_some_id hfq
      · simpa only [step, workerClaim, hfq, if_neg hsq] using hnone
  | complete q outputs =>
    cases hfq : findJob s q with
    | none => simpa only [step, workerComplete, hfq] using hnone
    | some jq =>
      by_cases hsq : jq.status = .running
      · simp only [step, workerComplete, hfq, if_pos hsq]
        show findJob (setJob s q _) jid = none
        refine findJob_setJob_none ?_ hnone
        show jq.jobID = q
        exact findJob_some_id hfq
      · simpa only [step, workerComplete, hfq, if_neg hsq] using hnone
  | fail q err =>
    cases hfq : findJob s q with
    | none => simpa only [step, workerFail, hfq] using hnone
    | some jq =>
      by_cases hsq : jq.status = .running
      · simp only [step, workerFail, hfq, if_pos hsq]
        refine findJob_setJob_none ?_ hnone
        show jq.jobID = q
        exact findJob_some_id hfq
      · simpa only [step, workerFail, hfq, if_neg hsq] using hnone
  | cancel q =>
    cases hfq : findJob s q with
    | none => simpa only [step, workerCancel, hfq] using hnone
    | some jq =>
      by_cases hsq : jq.status = .running
      · simp only [step, workerCancel, hfq, if_pos hsq]
        refine findJob_setJob_none ?_ hnone
        show jq.jobID = q
        exact findJob_some_id hfq
      · simpa only [step, workerCancel, hfq, if_neg hsq] using hnone
  | reap q =>
    cases hfq : findJob s q with
    | none => simpa only [step, reapOrphan, hfq] using hnone
    | some jq =>
      by_cases hsq : jq.status = .running
      · simp only [step, reapOrphan, hfq, if_pos hsq]
        refine findJob_setJob_none ?_ hnone
        show jq.jobID = q
        exact findJob_some_id hfq
      · simpa only [step, reapOrphan, hfq, if_neg hsq] using hnone
  | gc r => exact find?_filter_of_none hnone
  | tick => exact hnone

end JobEngine

namespace JobEngine

theorem lookupResults_step_none {reg : Registry} {op : Op} {s : SysState}
    {jid : Nat} (hres : lookupResults s jid = none)
    (hnr : ∀ j, findJob s jid = some j → j.status ≠ .running) :
    lookupResults (step reg op s) jid = none := by
  have hres' : s.results.find? (fun p => p.1 == jid) = none := by
    simpa [lookupResults, Option.map_eq_none'] using hres
  cases op with
  | create pid ins =>
    simp only [step]
    cases hc : createJob reg pid ins s with
    | error e => exact hres
    | ok pr =>
      obtain ⟨job, s'⟩ := pr
      obtain ⟨hjob, hs⟩ := createJob_ok_spec hc
      subst hs
      exact hres
  | dismiss q =>
    cases hfq : findJob s q with
    | none => simpa only [step, dismissJob, hfq] using hres
    | some jq =>
      cases hsq : jq.status <;>
        simpa only [step, dismissJob, hfq, hsq] using hres
  | claim q =>
    cases hfq : findJob s q with
    | none => simpa only [step, workerClaim, hfq] using hres
    | some jq =>
      by_cases hsq : jq.status = .accepted
      · simpa only [step, workerClaim, hfq, if_pos hsq] using hres
      · simpa only [step, workerClaim, hfq, if_neg hsq] using hres
  | complete q outputs =>
    cases hfq : findJob s q with
    | none => simpa only [step, workerComplete, hfq] using hres
    | some jq =>
      by_cases hsq : jq.status = .running
      · by_cases hq : q = jid
        · subst hq
          exact absurd hsq (hnr jq hfq)
        · simp only [step, workerComplete, hfq, if_pos hsq]
          show ((s.results ++ [(q, outputs)]).find?
            (fun p => p.1 == jid)).map (·.2) = none
          rw [List.find?_append, hres',
            List.find?_cons_of_neg _ (by simp [hq])]
          rfl
      · simpa only [step, workerComplete, hfq, if_neg hsq] using hres
  | fail q err =>
    cases hfq : findJob s q with
    | none => simpa only [step, workerFail, hfq] using hres
    | some jq =>
      by_cases hsq : jq.status = .running
      · simpa only [step, workerFail, hfq, if_pos hsq] using hres
      · simpa only [step, workerFail, hfq, if_neg hsq] using hres
  | cancel q =>
    cases hfq : findJob s q with
    | none => simpa only [step, workerCancel, hfq] using hres
    | some jq =>
      by_cases hsq : jq.status = .running
      · simpa only [step, workerCancel, hfq, if_pos hsq] using hres
      · simpa only [step, workerCancel, hfq, if_neg hsq] using hres
  | reap q =>
    cases hfq : findJob s q with
    | none => simpa only [step, reapOrphan, hfq] using hres
    | some jq =>
      by_cases hsq : jq.status = .running
      · simpa only [step, reapOrphan, hfq, if_pos hsq] using hres
      · simpa only [step, reapOrphan, hfq, if_neg hsq] using hres
  | gc r =>
    show ((gcSweep s r).results.find? (fun p => p.1 == jid)).map (·.2) = none
    rw [show (gcSweep s r).results =
      s.results.filter (fun p => !((gcVictims s r).contains p.1)) from rfl]
    rw [find?_filter_of_none hres']
    rfl
  | tick => exact hres

theorem dismissedFrozen_step {reg : Registry} {op : Op} {s : SysState}
    {jid : Nat} (hInv : Inv s) (h : DismissedFrozen jid s) :
    DismissedFrozen jid (step reg op s) := by
  obtain ⟨hlt, hres, hcase⟩ := h
  have hlt' : jid < (step reg op s).nextId :=
    lt_of_lt_of_le hlt (nextId_step reg op s)
  have hnr : ∀ j', findJob s jid = some j' → j'.status ≠ .running := by
    intro j' hf'
    rcases hcase with ⟨j, hf, hds⟩ | ⟨hnone, _⟩
    · rw [hf] at hf'
      injection hf' with e
      subst e
      simp [hds]
    · rw [hnone] at hf'
      cases hf'
  have hres' : lookupResults (step reg op s) jid = none :=
    lookupResults_step_none hres hnr
  refine ⟨hlt', hres', ?_⟩
  rcases hcase with ⟨j, hf, hds⟩ | ⟨hnone, hexp⟩
  · have ht : j.status.isTerminal = true := by rw [hds]; rfl
    rcases findJob_step_terminal hInv hf ht with hstep | ⟨hn, he⟩
    · exact .inl ⟨j, hstep, hds⟩
    · exact .inr ⟨hn, he⟩
  · exact .inr ⟨findJob_step_none hlt hnone, expunged_step_mem hexp⟩

theorem dismissedFrozen_run {reg : Registry} {ops : List Op} {s : SysState}
    {jid : Nat} (hInv : Inv s) (h : DismissedFrozen jid s) :
    DismissedFrozen jid (run reg ops s) := by
  induction ops generalizing s with
  | nil => exact h
  | cons op rest ih => exact ih (inv_step hInv) (dismissedFrozen_step hInv h)

end JobEngine

namespace JobEngine

theorem createdIds_lb {reg : Registry} {ops : List Op} {s : SysState} :
    ∀ i ∈ createdIds reg ops s, s.nextId ≤ i := by
  induction ops generalizing s with
  | nil =>
    intro i hi
    simp [createdIds] at hi
  | cons op rest ih =>
    intro i hi
    cases op with
    | create pid ins =>
      cases hc : createJob reg pid ins s with
      | ok pr =>
        obtain ⟨job, s'⟩ := pr
        obtain ⟨hjob, hs⟩ := createJob_ok_spec hc
        simp only [createdIds, hc] at hi
        rcases List.mem_cons.1 hi with rfl | hi
        · rw [hjob]
        · have h2 := ih i hi
          rw [hs] at h2
          have h3 : s.nextId + 1 ≤ i := h2
          omega
      | error e =>
        simp only [createdIds, hc] at hi
        exact ih i hi
    | dismiss q =>
      simp only [createdIds] at hi
      exact le_trans (nextId_step reg (.dismiss q) s) (ih i hi)
    | claim q =>
      simp only [createdIds] at hi
      exact le_trans (nextId_step reg (.claim q) s) (ih i hi)
    | complete q outputs =>
      simp only [createdIds] at hi
      exact le_trans (nextId_step reg (.complete q outputs) s) (ih i hi)
    | fail q err =>
      simp only [createdIds] at hi
      exact le_trans (nextId_step reg (.fail q err) s) (ih i hi)
    | cancel q =>
      simp only [createdIds] at hi
      exact le_trans (nextId_step reg (.cancel q) s) (ih i hi)
    | reap q =>
      simp only [createdIds] at hi
      exact le_trans (nextId_step reg (.reap q) s) (ih i hi)
    | gc r =>
      simp only [createdIds] at hi
      exact le_trans (nextId_step reg (.gc r) s) (ih i hi)
    | tick =>
      simp only [createdIds] at hi
      exact le_trans (nextId_step reg .tick s) (ih i hi)

theorem createdIds_nodup {reg : Registry} (ops : List Op) :
    ∀ s, (createdIds reg ops s).Nodup := by
  induction ops with
  | nil =>
    intro s
    simp [createdIds]
  | cons op rest ih =>
    intro s
    cases op with
    | create pid ins =>
      cases hc : createJob reg pid ins s with
      | ok pr =>
        obtain ⟨job, s'⟩ := pr
        obtain ⟨hjob, hs⟩ := createJob_ok_spec hc
        simp only [createdIds, hc]
        rw [List.nodup_cons]
        refine ⟨?_, ih s'⟩
        intro hmem
        have hle := createdIds_lb _ hmem
        rw [hs] at hle
        rw [hjob] at hle
        simp at hle
      | error e =>
        simp only [createdIds, hc]
        exact ih s
    | dismiss q => simp only [createdIds]; exact ih _
    | claim q => simp only [createdIds]; exact ih _
    | complete q outputs => simp only [createdIds]; exact ih _
    | fail q err => simp only [createdIds]; exact ih _
    | cancel q => simp only [createdIds]; exact ih _
    | reap q => simp only [createdIds]; exact ih _
    | gc r => simp only [createdIds]; exact ih _
    | tick => simp only [createdIds]; exact ih _

theorem flatten_chunks {α : Type} (limit : Nat) :
    ∀ (n : Nat) (l : List α), l.length ≤ n * limit →
      ((List.range n).map (fun k => (l.drop (k * limit)).take limit)).flatten
        = l := by
  intro n
  induction n with
  | zero =>
    intro l h
    simp only [Nat.zero_mul, Nat.le_zero] at h
    rw [List.eq_nil_of_length_eq_zero h]
    rfl
  | succ n ihn =>
    intro l h
    rw [List.range_succ_eq_map]
    simp only [List.map_cons, List.map_map, List.flatten_cons]
    have hz : (l.drop (0 * limit)).take limit = l.take limit := by simp
    rw [hz]
    have hmc : (List.range n).map
        ((fun k => (l.drop (k * limit)).take limit) ∘ Nat.succ)
        = (List.range n).map
          (fun k => ((l.drop limit).drop (k * limit)).take limit) := by
      apply List.map_congr_left
      intro k _
      simp only [Function.comp]
      rw [List.drop_drop]
      congr 2
      have e : Nat.succ k * limit = k * limit + limit := Nat.succ_mul k limit
      omega
    rw [hmc]
    have hlen : (l.drop limit).length ≤ n * limit := by
      have e : (n + 1) * limit = n * limit + limit := by ring
      rw [List.length_drop]
      omega
    rw [ihn (l.drop limit) hlen]
    exact List.take_append_drop limit l

end JobEngine

namespace JobEngine

theorem workerClaim_run {s : SysState} {jid : Nat} {j : Job}
    (hf : findJob s jid = some j) (hst : j.status = .accepted) :
    (workerClaim s jid).2 = setJob s jid
      { j with status := .running, started := some s.now,
               version := j.version + 1 } := by
  simp [workerClaim, hf, hst]

theorem workerComplete_run {s : SysState} {jid : Nat} {j : Job}
    (hf : findJob s jid = some j) (hst : j.status = .running) (o : Nat) :
    (workerComplete s jid o).2 =
      { setJob s jid
          { j with status := .successful, finished := some s.now,
                   version := j.version + 1 } with
        results := s.results ++ [(jid, o)] } := by
  simp [workerComplete, hf, hst]

theorem workerFail_run {s : SysState} {jid : Nat} {j : Job}
    (hf : findJob s jid = some j) (hst : j.status = .running) (e : Nat) :
    (workerFail s jid e).2 = setJob s jid
      { j with status := .failed, error := some e, finished := some s.now,
               version := j.version + 1 } := by
  simp [workerFail, hf, hst]

end JobEngine

open JobEngine in
/-- C1: an execute request on an existing process whose inputs violate the
process's declared input schema fails with `ValidationError` (HTTP 400)
before any Job record is created: the state is unchanged, so no Job is
created and a subsequent `listJobs` total is unchanged. -/
theorem execute_invalid_inputs_no_job (reg : Registry) (mode : Mode)
    (pid : Nat) (ins : List Nat) (T d : Nat) (b : Bool) (o e : Nat)
    (s : SysState) (limit offset : Nat) (pr : Nat × List Nat)
    (hreg : reg.find? (fun p => p.1 == pid) = some pr)
    (hbad : validInputs pr.2 ins = false) :
    (executeRequest reg mode pid ins T d b o e s).1.code = 400 ∧
    (executeRequest reg mode pid ins T d b o e s).1.err =
      some ApiError.validationError ∧
    (executeRequest reg mode pid ins T d b o e s).2.1 = s ∧
    (listJobs (executeRequest reg mode pid ins T d b o e s).2.1 limit
        offset).2 = (listJobs s limit offset).2 := by
  have hc : createJob reg pid ins s = .error .validationError := by
    simp [createJob, hreg, hbad]
  refine ⟨?_, ?_, ?_, ?_⟩ <;> simp [executeRequest, hc]

open JobEngine in
/-- Witness for C1: process 1 of the demo registry requires input field 5;
submitting empty inputs is rejected with 400 and creates no job. -/
theorem execute_invalid_inputs_no_job_witness :
    (executeRequest demoReg .async 1 [] 5 0 true 0 0 initState).1.code =
      400 ∧
    (executeRequest demoReg .async 1 [] 5 0 true 0 0 initState).1.err =
      some ApiError.validationError ∧
    (executeRequest demoReg .async 1 [] 5 0 true 0 0 initState).2.1 =
      initState ∧
    (listJobs (executeRequest demoReg .async 1 [] 5 0 true 0 0
        initState).2.1 3 0).2 = (listJobs initState 3 0).2 :=
  execute_invalid_inputs_no_job demoReg .async 1 [] 5 0 true 0 0 initState
    3 0 (1, [5]) rfl rfl

open JobEngine in
/-- C2: a job in a terminal state is frozen: no operation transitions it to
another status (it can only stay put or be expunged whole), and
`dismissJob` on it returns `Conflict` and makes no state change. -/
theorem terminal_job_frozen (reg : Registry) (s : SysState) (jid : Nat)
    (j : Job) (hInv : JobEngine.Inv s) (hf : findJob s jid = some j)
    (ht : j.status.isTerminal = true) :
    (∀ op j', findJob (step reg op s) jid = some j' →
      j'.status = j.status) ∧
    (dismissJob s jid).1 = DismissResult.conflict ∧
    (dismissJob s jid).2 = s := by
  have hconf : dismissJob s jid = (DismissResult.conflict, s) := by
    cases hst : j.status with
    | accepted => rw [hst] at ht; simp [JobStatus.isTerminal] at ht
    | running => rw [hst] at ht; simp [JobStatus.isTerminal] at ht
    | successful => simp [dismissJob, hf, hst]
    | failed => simp [dismissJob, hf, hst]
    | dismissed => simp [dismissJob, hf, hst]
  refine ⟨?_, by rw [hconf], by rw [hconf]⟩
  intro op j' hf'
  rcases @findJob_step_terminal reg op s jid j hInv hf ht with h | ⟨hn, _⟩
  · rw [h] at hf'
    injection hf' with e2
    rw [← e2]
  · rw [hn] at hf'
    cases hf'

open JobEngine in
/-- Witness for C2: dismissing an already `successful` job answers
`Conflict` and leaves the state untouched, and a GC sweep does not change
its status while it retains it. -/
theorem terminal_job_frozen_witness :
    (dismissJob demoDoneState 0).1 = DismissResult.conflict ∧
    (dismissJob demoDoneState 0).2 = demoDoneState ∧
    ∀ j', findJob (step demoReg (Op.gc 100) demoDoneState) 0 = some j' →
      j'.status = demoSuccessJob.status := by
  have h := terminal_job_frozen demoReg demoDoneState 0 demoSuccessJob
    (by unfold JobEngine.Inv; decide) rfl rfl
  exact ⟨h.2.1, h.2.2, h.1 (Op.gc 100)⟩

open JobEngine in
/-- C3: the `finished`-iff-terminal invariant holds in every reachable
state: it is preserved by every single operation from an invariant state,
and it holds after any operation sequence from the initial state. -/
theorem finished_iff_terminal_invariant (reg : Registry) :
    (∀ op s, JobEngine.Inv s → FinishedIffTerminal (step reg op s)) ∧
    (∀ ops, FinishedIffTerminal (run reg ops initState)) := by
  constructor
  · intro op s h
    exact (inv_step h).2.2.1
  · intro ops
    exact (inv_run inv_init).2.2.1

open JobEngine in
/-- Witness for C3: the invariant survives dismissing the freshly created
demo job. -/
theorem finished_iff_terminal_invariant_witness :
    FinishedIffTerminal (step demoReg (Op.dismiss 0) demoCreatedState) :=
  (finished_iff_terminal_invariant demoReg).1 (Op.dismiss 0)
    demoCreatedState (by unfold JobEngine.Inv; decide)

open JobEngine in
/-- C4: `getResults` succeeds exactly when the job exists with status
`successful`; an existing non-successful job answers `NotReady`, an unknown
jobID answers `NotFound`, and a jobID expunged by the Garbage Collector
answers `Gone`. -/
theorem getResults_characterization (s : SysState) (jid : Nat)
    (hInv : JobEngine.Inv s) :
    ((∃ o, getResults s jid = .ok o) ↔
      (∃ j, findJob s jid = some j ∧ j.status = .successful)) ∧
    (∀ j, findJob s jid = some j → j.status ≠ .successful →
      getResults s jid = .error .notReady) ∧
    (findJob s jid = none → jid ∉ s.expunged →
      getResults s jid = .error .notFound) ∧
    (findJob s jid = none → jid ∈ s.expunged →
      getResults s jid = .error .gone) := by
  refine ⟨⟨?_, ?_⟩, ?_, ?_, ?_⟩
  · rintro ⟨o, ho⟩
    cases hf : findJob s jid with
    | none =>
      have hval : getResults s jid =
          if s.expunged.contains jid then .error .gone
          else .error .notFound := by
        simp [getResults, hf]
      rw [hval] at ho
      split at ho <;> cases ho
    | some j =>
      by_cases hs' : j.status = .successful
      · exact ⟨j, rfl, hs'⟩
      · have hval : getResults s jid = .error .notReady := by
          simp [getResults, hf, hs']
        rw [hval] at ho
        cases ho
  · rintro ⟨j, hf, hsucc⟩
    obtain ⟨p, hp, hpe⟩ := hInv.2.2.2.2.1 j (findJob_mem hf) hsucc
    have hfind : (s.results.find? (fun q => q.1 == jid)).isSome := by
      rw [List.find?_isSome]
      exact ⟨p, hp, by simp [hpe, findJob_some_id hf]⟩
    obtain ⟨q, hq⟩ := Option.isSome_iff_exists.1 hfind
    refine ⟨q.2, ?_⟩
    simp [getResults, hf, hsucc, lookupResults, hq]
  · intro j hf hns
    simp [getResults, hf, hns]
  · intro hf hnm
    have hc : s.expunged.contains jid = false := by simpa using hnm
    have hval : getResults s jid =
        if s.expunged.contains jid then .error .gone
        else .error .notFound := by
      simp [getResults, hf]
    rw [hval, if_neg (by simpa using hnm)]
  · intro hf hm
    have hc : s.expunged.contains jid = true := by simpa using hm
    have hval : getResults s jid =
        if s.expunged.contains jid then .error .gone
        else .error .notFound := by
      simp [getResults, hf]
    rw [hval, if_pos (by simpa using hm)]

open JobEngine in
/-- Witness for C4: results of the completed demo job are served; an
unknown jobID answers `NotFound`. -/
theorem getResults_characterization_witness :
    (∃ o, getResults demoDoneState 0 = Except.ok o) ∧
    getResults demoDoneState 7 = Except.error ApiError.notFound := by
  have h0 := getResults_characterization demoDoneState 0 (by unfold JobEngine.Inv; decide)
  have h7 := getResults_characterization demoDoneState 7 (by unfold JobEngine.Inv; decide)
  exact ⟨h0.1.2 ⟨demoSuccessJob, rfl, rfl⟩,
    h7.2.2.1 rfl (by decide)⟩

open JobEngine in
/-- C5: every successful `createJob` call stores exactly one new Job whose
jobID is the allocator value, and the jobIDs handed out by the `create`
calls of any operation sequence — including repeated calls with identical
process and inputs — are pairwise distinct. -/
theorem createJob_exactly_one_unique_ids :
    (∀ reg pid ins s job s', createJob reg pid ins s = .ok (job, s') →
      s'.jobs.length = s.jobs.length + 1 ∧ job.jobID = s.nextId) ∧
    (∀ (reg : Registry) (ops : List Op) (s : SysState),
      (createdIds reg ops s).Nodup) := by
  constructor
  · intro reg pid ins s job s' h
    obtain ⟨hjob, hs⟩ := createJob_ok_spec h
    constructor
    · rw [hs]
      simp
    · rw [hjob]
  · intro reg ops s
    exact createdIds_nodup ops s

open JobEngine in
/-- Witness for C5: the first demo create call adds exactly one job with
jobID 0. -/
theorem createJob_exactly_one_unique_ids_witness :
    demoCreatedState.jobs.length = initState.jobs.length + 1 ∧
    demoAcceptedJob.jobID = initState.nextId :=
  createJob_exactly_one_unique_ids.1 demoReg 0 [] initState
    demoAcceptedJob demoCreatedState rfl

open JobEngine in
/-- C7: a `listJobs` page never exceeds `limit`; the listing order is the
stable sort by `created` then `jobID`, a permutation of the job set; and
concatenating all pages obtained by advancing `offset` in steps of `limit`
reproduces the whole sorted job set — every job exactly once, no
duplicates, no gaps. -/
theorem listJobs_pagination (s : SysState) (limit offset : Nat) :
    (listJobs s limit offset).1.length ≤ limit ∧
    List.Sorted jobLe (sortedJobs s) ∧
    (sortedJobs s).Perm s.jobs ∧
    (∀ n, s.jobs.length ≤ n * limit →
      ((List.range n).map
        (fun k => (listJobs s limit (k * limit)).1)).flatten
        = sortedJobs s) := by
  refine ⟨?_, ?_, ?_, ?_⟩
  · simp only [listJobs, List.length_take]
    exact min_le_left _ _
  · exact List.sorted_insertionSort jobLe s.jobs
  · exact List.perm_insertionSort jobLe s.jobs
  · intro n hn
    have hlen : (sortedJobs s).length = s.jobs.length :=
      (List.perm_insertionSort jobLe s.jobs).length_eq
    have h := flatten_chunks limit n (sortedJobs s) (by rw [hlen]; exact hn)
    simpa [listJobs] using h

open JobEngine in
/-- Witness for C7: two pages of size 2 over the three demo jobs
concatenate to the sorted job set. -/
theorem listJobs_pagination_witness :
    (listJobs demoListState 2 0).1.length ≤ 2 ∧
    ((List.range 2).map
      (fun k => (listJobs demoListState 2 (k * 2)).1)).flatten
      = sortedJobs demoListState := by
  have h := listJobs_pagination demoListState 2 0
  exact ⟨h.1, h.2.2.2 2 (by decide)⟩

open JobEngine in
/-- Counterexample for C6: a job dismissed while `accepted` indeed never
yields results, but once the Garbage Collector expunges it `getResults`
answers `Gone` — not `NotFound` or `NotReady` as the claim states. -/
theorem dismissed_accepted_gone_example :
    (∃ j, findJob (run demoReg [Op.create 0 []] initState) 0 = some j ∧
      j.status = JobStatus.accepted) ∧
    getResults (run demoReg
      [Op.create 0 [], Op.dismiss 0, Op.tick, Op.gc 0] initState) 0 =
      Except.error ApiError.gone ∧
    Except.error ApiError.gone ≠
      (Except.error ApiError.notFound : Except ApiError Nat) ∧
    Except.error ApiError.gone ≠
      (Except.error ApiError.notReady : Except ApiError Nat) := by
  refine ⟨⟨demoAcceptedJob, rfl, rfl⟩, rfl, ?_, ?_⟩
  · intro h
    cases h
  · intro h
    cases h

open JobEngine in
/-- C6 (amended): a job dismissed while its status is `accepted` never
executes: after any further operation sequence no output for its jobID is
in the Results Store and `getResults` on it never succeeds — it fails
`NotReady` while the record exists and `Gone` once the Garbage Collector
has expunged it. -/
theorem dismissed_accepted_never_executes (reg : Registry) (s : SysState)
    (jid : Nat) (j : Job) (ops : List Op) (hInv : JobEngine.Inv s)
    (hf : findJob s jid = some j) (hacc : j.status = .accepted) :
    lookupResults (run reg ops (dismissJob s jid).2) jid = none ∧
    (getResults (run reg ops (dismissJob s jid).2) jid).isOk = false ∧
    (getResults (run reg ops (dismissJob s jid).2) jid =
        Except.error ApiError.notReady ∨
      getResults (run reg ops (dismissJob s jid).2) jid =
        Except.error ApiError.gone) := by
  have hjid : j.jobID = jid := findJob_some_id hf
  have hd : (dismissJob s jid).2 = setJob s jid
      { j with status := .dismissed, finished := some s.now,
               version := j.version + 1 } := by
    simp [dismissJob, hf, hacc]
  have hInv1 : JobEngine.Inv (dismissJob s jid).2 := inv_dismiss hInv
  have hres0 : lookupResults s jid = none := by
    cases hlk : lookupResults s jid with
    | none => rfl
    | some o =>
      exfalso
      have hex : ∃ p, s.results.find? (fun q => q.1 == jid) = some p := by
        unfold lookupResults at hlk
        cases hfind : s.results.find? (fun q => q.1 == jid) with
        | none =>
          rw [hfind] at hlk
          cases hlk
        | some p => exact ⟨p, rfl⟩
      obtain ⟨p, hp⟩ := hex
      have hpm := List.mem_of_find?_eq_some hp
      have hpid : p.1 = jid := by simpa using List.find?_some hp
      obtain ⟨x, hx, hxi, hxs⟩ := hInv.2.2.2.1 p hpm
      have hxid : x.jobID = jid := by rw [hxi, hpid]
      have hxj : x = j :=
        eq_of_same_id hInv.2.1 hx (findJob_mem hf) (hxid.trans hjid.symm)
      rw [hxj, hacc] at hxs
      cases hxs
  have hfind1 : findJob (dismissJob s jid).2 jid =
      some ({ j with status := .dismissed, finished := some s.now, version := j.version + 1 }) := by
    rw [hd]
    refine findJob_setJob_self hf ?_
    show j.jobID = jid
    exact hjid
  have hDF : DismissedFrozen jid (dismissJob s jid).2 := by
    refine ⟨?_, ?_, .inl ⟨_, hfind1, rfl⟩⟩
    · rw [hd]
      show jid < s.nextId
      rw [← hjid]
      exact hInv.1 j (findJob_mem hf)
    · rw [hd]
      show lookupResults s jid = none
      exact hres0
  have hDFrun := @dismissedFrozen_run reg ops (dismissJob s jid).2 jid hInv1 hDF
  obtain ⟨hlt2, hres2, hcase2⟩ := hDFrun
  have hval : getResults (run reg ops (dismissJob s jid).2) jid =
      Except.error ApiError.notReady ∨
      getResults (run reg ops (dismissJob s jid).2) jid =
      Except.error ApiError.gone := by
    rcases hcase2 with ⟨j2, hf2, hds2⟩ | ⟨hn2, he2⟩
    · left
      simp [getResults, hf2, hds2]
    · right
      have hval2 : getResults (run reg ops (dismissJob s jid).2) jid =
          if (run reg ops (dismissJob s jid).2).expunged.contains jid then
            .error .gone
          else .error .notFound := by
        simp [getResults, hn2]
      rw [hval2, if_pos (by simpa using he2)]
  refine ⟨hres2, ?_, hval⟩
  rcases hval with h | h <;> simp [h, Except.isOk, Except.toBool]

open JobEngine in
/-- Witness for C6 (amended): dismiss the freshly accepted demo job, then
let a worker try to claim and complete it — no result ever appears and
`getResults` stays failing. -/
theorem dismissed_accepted_never_executes_witness :
    lookupResults (run demoReg [Op.tick, Op.claim 0, Op.complete 0 9]
      (dismissJob demoCreatedState 0).2) 0 = none ∧
    (getResults (run demoReg [Op.tick, Op.claim 0, Op.complete 0 9]
      (dismissJob demoCreatedState 0).2) 0).isOk = false ∧
    (getResults (run demoReg [Op.tick, Op.claim 0, Op.complete 0 9]
        (dismissJob demoCreatedState 0).2) 0 =
        Except.error ApiError.notReady ∨
      getResults (run demoReg [Op.tick, Op.claim 0, Op.complete 0 9]
        (dismissJob demoCreatedState 0).2) 0 =
        Except.error ApiError.gone) :=
  dismissed_accepted_never_executes demoReg demoCreatedState 0
    demoAcceptedJob [Op.tick, Op.claim 0, Op.complete 0 9]
    (by unfold JobEngine.Inv; decide) rfl rfl

open JobEngine in
/-- C8: a sync-mode execute request on valid inputs is never blocked beyond
`T`: if the executor finishes within the deadline the Dispatcher returns
HTTP 200 with the finished Job (terminal status, `finished` set); if the
deadline elapses first it returns HTTP 201 with an accepted-style body
while the Job is left `running` in the Worker Pool's care. -/
theorem sync_deadline_bounded (reg : Registry) (pid : Nat) (ins : List Nat)
    (T d : Nat) (b : Bool) (o e : Nat) (s : SysState) (pr : Nat × List Nat)
    (hInv : JobEngine.Inv s)
    (hreg : reg.find? (fun p => p.1 == pid) = some pr)
    (hok : validInputs pr.2 ins = true) :
    (d ≤ T →
      (executeRequest reg .sync pid ins T d b o e s).1.code = 200 ∧
      ∃ j, findJob (executeRequest reg .sync pid ins T d b o e s).2.1
          s.nextId = some j ∧ j.status.isTerminal = true ∧
        j.finished.isSome = true ∧
        (executeRequest reg .sync pid ins T d b o e s).1.body =
          some j.status) ∧
    (T < d →
      (executeRequest reg .sync pid ins T d b o e s).1.code = 201 ∧
      (executeRequest reg .sync pid ins T d b o e s).1.body =
        some JobStatus.accepted ∧
      ∃ j, findJob (executeRequest reg .sync pid ins T d b o e s).2.1
          s.nextId = some j ∧ j.status = JobStatus.running) ∧
    (executeRequest reg .sync pid ins T d b o e s).2.2 ≤ T := by
  cases hc : createJob reg pid ins s with
  | error e2 =>
    exfalso
    simp [createJob, hreg, hok] at hc
  | ok pr2 =>
    obtain ⟨job, s1⟩ := pr2
    obtain ⟨hjob, hs1⟩ := createJob_ok_spec hc
    have hjid : job.jobID = s.nextId := by rw [hjob]
    have hjacc : job.status = .accepted := by rw [hjob]
    rw [← hjid]
    have hfind1 : findJob s1 job.jobID = some job := by
      rw [hjid, hs1]
      show List.find? (fun x => x.jobID == s.nextId) (s.jobs ++ [job]) =
        some job
      have h1 : List.find? (fun x => x.jobID == s.nextId) s.jobs = none := by
        rw [List.find?_eq_none]
        intro x hx
        have h2 := hInv.1 x hx
        simp
        omega
      rw [List.find?_append, h1, List.find?_cons_of_pos _ (by simp [hjid])]
      rfl
    set jr : Job := ({ job with status := .running, started := some s1.now, version := job.version + 1 }) with hjr
    have hclaim : (workerClaim s1 job.jobID).2 = setJob s1 job.jobID jr := by
      rw [hjr]
      exact workerClaim_run hfind1 hjacc
    have hfind2 : findJob (setJob s1 job.jobID jr) job.jobID = some jr := by
      refine findJob_setJob_self hfind1 ?_
      rw [hjr]
    refine ⟨?_, ?_, ?_⟩
    · intro hd
      have hrun : executeRequest reg .sync pid ins T d b o e s =
          ({ code := 200, jobID := some job.jobID,
             body := some (if b then JobStatus.successful
               else JobStatus.failed), err := none },
           (if b then
              (workerComplete (setJob s1 job.jobID jr) job.jobID o).2
            else
              (workerFail (setJob s1 job.jobID jr) job.jobID e).2), d) := by
        simp only [executeRequest, hc]
        rw [hclaim, if_pos hd]
      rw [hrun]
      refine ⟨rfl, ?_⟩
      cases b with
      | true =>
        rw [workerComplete_run hfind2 rfl o]
        refine ⟨({ jr with status := .successful, finished := some (setJob s1 job.jobID jr).now, version := jr.version + 1 }), ?_, ?_, ?_, ?_⟩
        · show findJob (setJob (setJob s1 job.jobID jr) job.jobID ({ jr with status := .successful, finished := some (setJob s1 job.jobID jr).now, version := jr.version + 1 })) job.jobID = some _
          exact findJob_setJob_self hfind2 rfl
        · rfl
        · rfl
        · rfl
      | false =>
        rw [workerFail_run hfind2 rfl e]
        refine ⟨({ jr with status := .failed, error := some e, finished := some (setJob s1 job.jobID jr).now, version := jr.version + 1 }), ?_, ?_, ?_, ?_⟩
        · exact findJob_setJob_self hfind2 rfl
        · rfl
        · rfl
        · rfl
    · intro hd
      have hnd : ¬ (d ≤ T) := by omega
      have hrun : executeRequest reg .sync pid ins T d b o e s =
          ({ code := 201, jobID := some job.jobID,
             body := some JobStatus.accepted, err := none },
           setJob s1 job.jobID jr, T) := by
        simp only [executeRequest, hc]
        rw [hclaim, if_neg hnd]
      rw [hrun]
      refine ⟨rfl, rfl, jr, hfind2, ?_⟩
      rw [hjr]
    · by_cases hd : d ≤ T
      · have hrun : (executeRequest reg .sync pid ins T d b o e s).2.2
            = d := by
          simp only [executeRequest, hc]
          rw [if_pos hd]
        rw [hrun]
        exact hd
      · have hrun : (executeRequest reg .sync pid ins T d b o e s).2.2
            = T := by
          simp only [executeRequest, hc]
          rw [if_neg hd]
        rw [hrun]

open JobEngine in
/-- Witness for C8: with deadline 5, a 3-step executor returns 200
synchronously, a 9-step executor falls back to 201 with the caller blocked
for at most the deadline. -/
theorem sync_deadline_bounded_witness :
    (executeRequest demoReg .sync 0 [] 5 3 true 7 0 initState).1.code =
      200 ∧
    (executeRequest demoReg .sync 0 [] 5 9 true 7 0 initState).1.code =
      201 ∧
    (executeRequest demoReg .sync 0 [] 5 9 true 7 0 initState).2.2 ≤ 5 := by
  have h1 := sync_deadline_bounded demoReg 0 [] 5 3 true 7 0 initState
    (0, []) (by unfold JobEngine.Inv; decide) rfl rfl
  have h2 := sync_deadline_bounded demoReg 0 [] 5 9 true 7 0 initState
    (0, []) (by unfold JobEngine.Inv; decide) rfl rfl
  exact ⟨(h1.1 (by omega)).1, (h2.2.1 (by omega)).1, h2.2.2⟩
